import Mathlib

/-!
Shallow embedding of the ASCII tree generator in `src/tree/tree.py`.

The filesystem is modelled as a finite tree (`FSTree`).  Every node carries the
data the Python code can observe about the corresponding `pathlib.Path`:

* `name`, the base name (`path.name`), and `path_s`, the full path text
  (`str(path)`);
* `rel_cwd`, the result of `path.relative_to(Path.cwd())`: `some s` when the
  path lies under the process working directory, `none` when `relative_to`
  would raise `ValueError`;
* `is_symlink`, the result of `path.is_symlink()`;
* `stat`, the result of `path.stat()`: `none` models a raising stat call
  (for example a broken symlink).  `path.is_dir()` / `path.is_file()` follow
  pathlib semantics: they are computed from the same stat record and are
  `false` when stat fails;
* `lerr`, the outcome of listing the node with `iterdir`: `none` on success,
  `some .permission` for `PermissionError`, `some .ioerr` for any other
  `OSError`;
* `children`, the entries produced by a successful `iterdir`.

Python exceptions that escape a function are modelled with `Except Unit`.
Counters `file_count` / `dir_count` (fields of `TreeGenerator`) are threaded
explicitly as a `TState`.
-/

/-- Sort mode, the argparse choices of `--sort-by`. -/
inductive SortBy where
  | name
  | size
  | modified
deriving DecidableEq, Repr

/-- Mirror of `class TreeConfig` (tree.py lines 23-39). `max_depth` and
`max_files` are `Int` because `argparse` with `type=int` accepts negative
values. `gitignore_patterns` is a Python `set`; the model fixes its iteration
order as the list order. -/
structure TreeConfig where
  max_depth : Option Int := none
  max_files : Option Int := none
  dirs_only : Bool := false
  files_only : Bool := false
  show_hidden : Bool := false
  follow_links : Bool := false
  use_gitignore : Bool := false
  custom_ignore : List String := []
  sort_by : SortBy := .name
  reverse_sort : Bool := false
  show_size : Bool := false
  show_permissions : Bool := false
  full_path : Bool := false
  gitignore_patterns : List String := []
deriving Repr

/-- File type reported by a successful stat call (`S_ISDIR` / `S_ISREG` are
mutually exclusive; everything else, e.g. sockets and FIFOs, is `other`). -/
inductive FType where
  | dir
  | reg
  | other
deriving DecidableEq, Repr

/-- Data of one successful `path.stat()` call. -/
structure StatInfo where
  ftype : FType
  st_size : Nat
  st_mtime : Int
  st_mode : Nat
deriving DecidableEq, Repr

/-- Outcome of a failing `iterdir` listing. -/
inductive ListingErr where
  | permission
  | ioerr
deriving DecidableEq, Repr

/-- Observable data of one filesystem entry, see the module docstring. -/
structure EntryMeta where
  name : String
  path_s : String
  rel_cwd : Option String
  is_symlink : Bool
  stat : Option StatInfo
deriving DecidableEq, Repr

/-- A filesystem subtree: one node plus the children a successful listing
would produce (ignored for non-directories and failing listings). -/
inductive FSTree where
  | node (meta : EntryMeta) (lerr : Option ListingErr) (children : List FSTree)
deriving Repr

def FSTree.meta : FSTree → EntryMeta
  | .node m _ _ => m

def FSTree.lerr : FSTree → Option ListingErr
  | .node _ e _ => e

def FSTree.children : FSTree → List FSTree
  | .node _ _ ch => ch

/-- Result of `path.is_dir()`: pathlib computes it from `stat` and returns
`False` when stat raises. -/
def FSTree.is_dir (t : FSTree) : Bool :=
  match t.meta.stat with
  | some s => match s.ftype with | .dir => true | _ => false
  | none => false

/-- Result of `path.is_file()`. -/
def FSTree.is_file (t : FSTree) : Bool :=
  match t.meta.stat with
  | some s => match s.ftype with | .reg => true | _ => false
  | none => false

/-- Result of `entry.is_symlink()`. -/
def FSTree.is_symlink (t : FSTree) : Bool := t.meta.is_symlink

/-- The mutable counter pair `self.file_count` / `self.dir_count`. -/
structure TState where
  file_count : Nat
  dir_count : Nat
deriving DecidableEq, Repr

/-! ### String helpers (Python primitives used by tree.py) -/

/-- Python `name.startswith('.')`, specialised to the one-character prefix
used at tree.py line 74. -/
def startsDot (s : String) : Bool :=
  match s.data with
  | c :: _ => c == '.'
  | [] => false

/-- Python `str.lower()` (ASCII case folding suffices for the model). -/
def lowerData (s : String) : List Char := s.data.map Char.toLower

/-- Python `pattern.rstrip('/')`: drop every trailing slash. -/
def rstripSlash (s : String) : String :=
  String.mk ((s.data.reverse.dropWhile (fun c => c == '/')).reverse)

/-- Python `('/' in pattern)`. -/
def containsSlash (s : String) : Bool := s.data.contains '/'

/-! ### fnmatch.fnmatch (shell glob matching)

The pattern is tokenized exactly as `fnmatch.translate` scans it: `*`, `?`,
bracket classes `[...]` with optional leading `!` and with a `]` immediately
after `[` (or `[!`) taken literally; an unterminated `[` is a literal
character.  On POSIX `os.path.normcase` is the identity, so no case folding
happens during matching. -/

/-- Membership of a character in a bracket-class body, with `a-b` ranges. -/
def inClass : List Char → Char → Bool
  | [], _ => false
  | a :: '-' :: b :: rest, c =>
      (decide (a ≤ c) && decide (c ≤ b)) || inClass rest c
  | a :: rest, c => (a == c) || inClass rest c

/-- Scan for the closing bracket of a class; returns (body, rest after `]`). -/
def findRBrack : List Char → Option (List Char × List Char)
  | [] => none
  | c :: cs =>
      if c == ']' then some ([], cs)
      else
        match findRBrack cs with
        | some (body, rest) => some (c :: body, rest)
        | none => none

/-- Parse the text following `[`: optional `!` negation, then the class body
up to the closing `]` (a `]` in first position is part of the body). -/
def splitClass (cs : List Char) : Option (Bool × List Char × List Char) :=
  match cs with
  | '!' :: '!' :: _ => (findRBrack cs.tail).map (fun p => (true, p.1, p.2))
  | '!' :: ']' :: t => (findRBrack t).map (fun p => (true, ']' :: p.1, p.2))
  | '!' :: t => (findRBrack t).map (fun p => (true, p.1, p.2))
  | ']' :: t => (findRBrack t).map (fun p => (false, ']' :: p.1, p.2))
  | t => (findRBrack t).map (fun p => (false, p.1, p.2))

/-- Glob pattern tokens. -/
inductive GlobTok where
  | star
  | qmark
  | lit (c : Char)
  | cls (neg : Bool) (body : List Char)
deriving DecidableEq, Repr

/-- Tokenizer; the fuel argument is the pattern length, which always suffices
because every step consumes at least one character. -/
def tokenizeF : Nat → List Char → List GlobTok
  | 0, _ => []
  | _ + 1, [] => []
  | fuel + 1, '*' :: cs => .star :: tokenizeF fuel cs
  | fuel + 1, '?' :: cs => .qmark :: tokenizeF fuel cs
  | fuel + 1, '[' :: cs =>
      (match splitClass cs with
       | some (neg, body, rest) => .cls neg body :: tokenizeF fuel rest
       | none => .lit '[' :: tokenizeF fuel cs)
  | fuel + 1, c :: cs => .lit c :: tokenizeF fuel cs

def tokenize (p : String) : List GlobTok := tokenizeF p.data.length p.data

/-- Matching of a token list against text; `star` matches any split point. -/
def gmatch : List GlobTok → List Char → Bool
  | [], s => s.isEmpty
  | .star :: ps, s => s.tails.any (fun t => gmatch ps t)
  | .qmark :: ps, s =>
      (match s with
       | [] => false
       | _ :: s1 => gmatch ps s1)
  | .lit c :: ps, s =>
      (match s with
       | [] => false
       | c1 :: s1 => (c1 == c) && gmatch ps s1)
  | .cls neg body :: ps, s =>
      (match s with
       | [] => false
       | c1 :: s1 => (inClass body c1 != neg) && gmatch ps s1)

/-- Python `fnmatch.fnmatch(name, pat)` (POSIX: `normcase` is the identity). -/
def fnmatchB (name pat : String) : Bool := gmatch (tokenize pat) name.data

/-! ### Ignore policy -/

/-- Loop over the gitignore patterns, tree.py lines 84-93. Python iterates a
set; the model fixes the iteration order as the list order.  `.error ()`
models the `ValueError` that `Path.relative_to(Path.cwd())` raises when the
entry path is not under the current working directory; the exception escapes
`_should_ignore` because nothing catches `ValueError`. -/
def gitignoreLoop (name : String) (rel_cwd : Option String) :
    List String → Except Unit Bool
  | [] => .ok false
  | pat :: rest =>
      let p := rstripSlash pat
      if fnmatchB name p then .ok true
      else if containsSlash p then
        match rel_cwd with
        | none => .error ()
        | some rel =>
            if fnmatchB rel p then .ok true
            else gitignoreLoop name rel_cwd rest
      else gitignoreLoop name rel_cwd rest

/-- `TreeGenerator._should_ignore` (tree.py lines 69-95). -/
def should_ignore (cfg : TreeConfig) (t : FSTree) : Except Unit Bool :=
  let name := t.meta.name
  if !cfg.show_hidden && startsDot name then .ok true
  else if cfg.custom_ignore.any (fun pat => fnmatchB name pat) then .ok true
  else if cfg.use_gitignore then
    gitignoreLoop name t.meta.rel_cwd cfg.gitignore_patterns
  else .ok false

/-! ### Entry formatting -/

/-- Rounded division modelling the one-decimal rendering of `f"{v:6.1f}"`
(the binary floating point rounding is approximated by rational half-up
rounding; no claim depends on the digits). -/
def roundDiv (a b : Nat) : Nat := (a + b / 2) / b

/-- Rendering of `f"{v:6.1f}"` for `v = n / d`: one decimal digit,
right-aligned to width 6. -/
def fmt1 (n d : Nat) : String :=
  let t := roundDiv (10 * n) d
  let s := toString (t / 10) ++ "." ++ toString (t % 10)
  String.mk (List.replicate (6 - s.length) ' ') ++ s

/-- Loop of `TreeGenerator._format_size` (tree.py lines 97-103): repeated
division by 1024 through the unit list. -/
def format_size_go : Nat → Nat → List String → String
  | n, d, [] => fmt1 n d ++ " PB"
  | n, d, u :: us =>
      if n < 1024 * d then fmt1 n d ++ " " ++ u
      else format_size_go n (1024 * d) us

/-- `TreeGenerator._format_size`. -/
def format_size (size : Nat) : String :=
  format_size_go size 1 ["B", "KB", "MB", "GB", "TB"]

/-- Python `oct(mode)`: the text `0o` followed by the base-8 digits. -/
def octString (n : Nat) : String := "0o" ++ String.mk (Nat.toDigits 8 n)

/-- Python `s[-3:]`: the last three characters. -/
def lastThree (s : String) : String := String.mk ((s.data.reverse.take 3).reverse)

/-- `TreeGenerator._format_entry` (tree.py lines 139-164).  The two
`try/except` blocks around `path.stat()` are modelled by matching on the
optional stat record: a failing stat leaves the annotation off. -/
def format_entry (cfg : TreeConfig) (t : FSTree) : String :=
  let name0 := if cfg.full_path then t.meta.path_s else t.meta.name
  let name1 := if t.is_dir then name0 ++ "/" else name0
  let name2 :=
    if cfg.show_size && t.is_file then
      match t.meta.stat with
      | some s => name1 ++ " (" ++ format_size s.st_size ++ ")"
      | none => name1
    else name1
  if cfg.show_permissions then
    match t.meta.stat with
    | some s => "[" ++ lastThree (octString s.st_mode) ++ "] " ++ name2
    | none => name2
  else name2

/-! ### Sorting and listing -/

/-- Lexicographic comparison of character lists by code point: Python string
comparison. -/
def lexLe : List Char → List Char → Bool
  | [], _ => true
  | _ :: _, [] => false
  | a :: as, b :: bs =>
      if a < b then true else if b < a then false else lexLe as bs

/-- Whether evaluating the configured sort key (tree.py lines 105-112)
succeeds on an entry: the `modified` key calls `p.stat()` unconditionally and
raises when stat fails; the `name` key is total; the `size` key guards the
stat call behind `p.is_file()`, which is already `False` when stat fails. -/
def sort_key_ok (cfg : TreeConfig) (t : FSTree) : Bool :=
  match cfg.sort_by with
  | .modified => t.meta.stat.isSome
  | _ => true

/-- The `size` sort key: `p.stat().st_size if p.is_file() else 0`. -/
def sizeKey (t : FSTree) : Nat :=
  if t.is_file then
    match t.meta.stat with
    | some s => s.st_size
    | none => 0
  else 0

/-- The `modified` sort key (meaningful only when `sort_key_ok` holds). -/
def mtimeKey (t : FSTree) : Int :=
  match t.meta.stat with
  | some s => s.st_mtime
  | none => 0

/-- Ascending comparison by the configured key: `name` compares the
case-folded base name, `size` the byte size (0 for non-files), `modified` the
mtime. -/
def keyLe (cfg : TreeConfig) (a b : FSTree) : Bool :=
  match cfg.sort_by with
  | .name => lexLe (lowerData a.meta.name) (lowerData b.meta.name)
  | .size => decide (sizeKey a ≤ sizeKey b)
  | .modified => decide (mtimeKey a ≤ mtimeKey b)

/-- The comparison realised by `list.sort(key=..., reverse=...)`: the reverse
flag flips the key comparison while stability still keeps equal-key elements
in their original order. -/
def keyRel (cfg : TreeConfig) (a b : FSTree) : Bool :=
  if cfg.reverse_sort then keyLe cfg b a else keyLe cfg a b

/-- Python `list.sort` / `sorted`: a stable sort by the configured key.
CPython evaluates every key first, in list order, so a raising key aborts the
sort before any reordering; otherwise the result is the stable ascending
reordering, here realised by `List.insertionSort` (stable, like timsort). -/
def sortPy (cfg : TreeConfig) (l : List FSTree) : Except Unit (List FSTree) :=
  if l.all (fun e => sort_key_ok cfg e) then
    .ok (l.insertionSort (fun a b => keyRel cfg a b = true))
  else .error ()

/-- The comprehension `[e for e in directory.iterdir() if not
self._should_ignore(e)]`, evaluated left to right, propagating the first
exception (only `PermissionError` from the listing itself is caught, and that
case is handled before this function is reached). -/
def filterIgnored (cfg : TreeConfig) : List FSTree → Except Unit (List FSTree)
  | [] => .ok []
  | e :: rest =>
      match should_ignore cfg e with
      | .error err => .error err
      | .ok b =>
          match filterIgnored cfg rest with
          | .error err => .error err
          | .ok r => if b then .ok r else .ok (e :: r)

/-- `TreeGenerator._get_entries` (tree.py lines 114-137): list, filter by the
ignore policy, filter by type, sort, and (when no type filter is active)
regroup directories before files, each group re-sorted. Only
`PermissionError` at the listing step is caught (yielding the empty list);
any other listing error, and any exception from the ignore policy or a sort
key, propagates. -/
def get_entries (cfg : TreeConfig) (t : FSTree) : Except Unit (List FSTree) :=
  match t.lerr with
  | some .permission => .ok []
  | some .ioerr => .error ()
  | none =>
      match filterIgnored cfg t.children with
      | .error err => .error err
      | .ok entries =>
          let entries1 :=
            if cfg.dirs_only then entries.filter (fun e => e.is_dir)
            else if cfg.files_only then entries.filter (fun e => e.is_file)
            else entries
          match sortPy cfg entries1 with
          | .error err => .error err
          | .ok sorted1 =>
              if !cfg.files_only && !cfg.dirs_only then
                match sortPy cfg (sorted1.filter (fun e => e.is_dir)) with
                | .error err => .error err
                | .ok dirs =>
                    match sortPy cfg (sorted1.filter (fun e => e.is_file)) with
                    | .error err => .error err
                    | .ok files => .ok (dirs ++ files)
              else .ok sorted1


/-! ### The recursive renderer -/

/-- Box-drawing constants of `TreeGenerator`. -/
def PIPE : String := "│   "

def TEE : String := "├── "

def ELBOW : String := "└── "

def BLANK : String := "    "

/-- Text of the budget marker line (tree.py line 185), without the prefix and
connector. -/
def LIMIT_MSG : String := "... (file limit reached)"

/-- The depth guard of `generate` (tree.py line 169). -/
def depthStop (cfg : TreeConfig) (depth : Nat) : Bool :=
  match cfg.max_depth with
  | some k => decide ((depth : Int) ≥ k)
  | none => false

/-- The global file-budget guard (tree.py lines 173 and 184). -/
def filesStop (cfg : TreeConfig) (st : TState) : Bool :=
  match cfg.max_files with
  | some m => decide ((st.file_count : Int) ≥ m)
  | none => false

/-! ### Termination support for the mutual recursion below.
These are Prop-valued definitions used only by the decreasing measures. -/

def sizeOf_le_of_sublist : ∀ {x y : List FSTree}, x.Sublist y → sizeOf x ≤ sizeOf y := by
  intro x y hxy
  induction hxy with
  | slnil => exact le_refl _
  | cons a hxy ih => simp only [List.cons.sizeOf_spec]; omega
  | cons₂ a hxy ih => simp only [List.cons.sizeOf_spec]; omega

def sizeOf_eq_of_perm : ∀ {x y : List FSTree}, x.Perm y → sizeOf x = sizeOf y := by
  intro x y hxy
  induction hxy with
  | nil => rfl
  | cons a h ih => simp only [List.cons.sizeOf_spec]; omega
  | swap a b l => simp only [List.cons.sizeOf_spec]; omega
  | trans h1 h2 ih1 ih2 => omega

def sizeOf_filterIgnored :
    ∀ (cfg : TreeConfig) (x y : List FSTree), filterIgnored cfg x = .ok y → sizeOf y ≤ sizeOf x := by
  intro cfg x
  induction x with
  | nil =>
      intro y hy
      simp only [filterIgnored, Except.ok.injEq] at hy
      subst hy
      exact le_refl _
  | cons a as ih =>
      intro y hy
      simp only [filterIgnored] at hy
      cases hsi : should_ignore cfg a with
      | error err => rw [hsi] at hy; simp at hy
      | ok b =>
          rw [hsi] at hy
          cases hfr : filterIgnored cfg as with
          | error err => rw [hfr] at hy; simp at hy
          | ok r =>
              rw [hfr] at hy
              have hr := ih r hfr
              cases b with
              | true =>
                  simp at hy
                  subst hy
                  simp only [List.cons.sizeOf_spec]
                  omega
              | false =>
                  simp at hy
                  subst hy
                  simp only [List.cons.sizeOf_spec]
                  omega

def sizeOf_sortPy :
    ∀ (cfg : TreeConfig) (x y : List FSTree), sortPy cfg x = .ok y → sizeOf y = sizeOf x := by
  intro cfg x y hxy
  simp only [sortPy] at hxy
  split at hxy
  · simp only [Except.ok.injEq] at hxy
    subst hxy
    exact sizeOf_eq_of_perm (List.perm_insertionSort _ x)
  · simp at hxy

def is_file_false_of_is_dir : ∀ (u : FSTree), u.is_dir = true → u.is_file = false := by
  intro u h
  rcases u with ⟨⟨nm, ps, rc, sym, stat⟩, lerr, ch⟩
  rcases stat with _ | ⟨ft, sz, mt, md⟩
  · rfl
  · cases ft
    · rfl
    · simp [FSTree.is_dir, FSTree.meta] at h
    · rfl

def sizeOf_filter_pair :
    ∀ (x : List FSTree),
      sizeOf (x.filter (fun e => e.is_dir)) + sizeOf (x.filter (fun e => e.is_file)) ≤ sizeOf x + 1 := by
  intro x
  induction x with
  | nil => simp
  | cons a as ih =>
      by_cases ha : a.is_dir = true
      · have hf := is_file_false_of_is_dir a ha
        simp [List.filter_cons, ha, hf, List.cons.sizeOf_spec]
        omega
      · by_cases hf : a.is_file = true
        · simp [List.filter_cons, ha, hf, List.cons.sizeOf_spec]
          omega
        · simp [List.filter_cons, ha, hf, List.cons.sizeOf_spec]
          omega

def sizeOf_append_fs : ∀ (x y : List FSTree), sizeOf (x ++ y) + 1 = sizeOf x + sizeOf y := by
  intro x y
  induction x with
  | nil => simp only [List.nil_append, List.nil.sizeOf_spec]; omega
  | cons a as ih => simp only [List.cons_append, List.cons.sizeOf_spec]; omega

def sizeOf_get_entries :
    ∀ (cfg : TreeConfig) (t : FSTree) (l : List FSTree),
      get_entries cfg t = .ok l → sizeOf l < sizeOf t := by
  intro cfg t l h
  cases t with
  | node m lerr ch =>
      have hm : 1 ≤ sizeOf m := by cases m; simp only [EntryMeta.mk.sizeOf_spec]; omega
      have hch : 1 ≤ sizeOf ch := by
        cases ch
        · simp
        · simp only [List.cons.sizeOf_spec]; omega
      simp only [FSTree.node.sizeOf_spec]
      have hle : sizeOf l ≤ sizeOf ch + 1 := by
        simp only [get_entries, FSTree.lerr, FSTree.children] at h
        cases lerr with
        | some le =>
            cases le with
            | permission =>
                simp only [Except.ok.injEq] at h
                subst h
                simp only [List.nil.sizeOf_spec]
                omega
            | ioerr => simp at h
        | none =>
            cases hfi : filterIgnored cfg ch with
            | error err => rw [hfi] at h; simp at h
            | ok entries0 =>
                rw [hfi] at h
                have h0 : sizeOf entries0 ≤ sizeOf ch := sizeOf_filterIgnored cfg ch entries0 hfi
                by_cases hdo : cfg.dirs_only = true
                · simp [hdo] at h
                  cases hs1 : sortPy cfg (entries0.filter (fun e => e.is_dir)) with
                  | error err => rw [hs1] at h; simp at h
                  | ok sorted1 =>
                      rw [hs1] at h
                      simp at h
                      subst h
                      have h1 := sizeOf_sortPy cfg _ _ hs1
                      have h2 : sizeOf (entries0.filter (fun e => e.is_dir)) ≤ sizeOf entries0 :=
                        sizeOf_le_of_sublist (List.filter_sublist entries0)
                      omega
                · by_cases hfo : cfg.files_only = true
                  · simp [hdo, hfo] at h
                    cases hs1 : sortPy cfg (entries0.filter (fun e => e.is_file)) with
                    | error err => rw [hs1] at h; simp at h
                    | ok sorted1 =>
                        rw [hs1] at h
                        simp at h
                        subst h
                        have h1 := sizeOf_sortPy cfg _ _ hs1
                        have h2 : sizeOf (entries0.filter (fun e => e.is_file)) ≤ sizeOf entries0 :=
                          sizeOf_le_of_sublist (List.filter_sublist entries0)
                        omega
                  · simp [hdo, hfo] at h
                    cases hs1 : sortPy cfg entries0 with
                    | error err => rw [hs1] at h; simp at h
                    | ok sorted1 =>
                        rw [hs1] at h
                        simp at h
                        cases hs2 : sortPy cfg (sorted1.filter (fun e => e.is_dir)) with
                        | error err => rw [hs2] at h; simp at h
                        | ok dirs =>
                            rw [hs2] at h
                            cases hs3 : sortPy cfg (sorted1.filter (fun e => e.is_file)) with
                            | error err => rw [hs3] at h; simp at h
                            | ok files =>
                                rw [hs3] at h
                                simp at h
                                subst h
                                have h1 := sizeOf_sortPy cfg _ _ hs1
                                have h2 := sizeOf_sortPy cfg _ _ hs2
                                have h3 := sizeOf_sortPy cfg _ _ hs3
                                have h4 := sizeOf_filter_pair sorted1
                                have h5 := sizeOf_append_fs dirs files
                                omega
      omega

mutual
def generate (cfg : TreeConfig) (t : FSTree) (pre : String) (depth : Nat) (st : TState) :
    Except Unit (List String × TState) :=
  if depthStop cfg depth then .ok ([], st)
  else if filesStop cfg st then .ok ([], st)
  else if !t.is_dir then .ok ([], st)
  else
    match hents : get_entries cfg t with
    | .error err => .error err
    | .ok entries => genLoop cfg entries pre depth st
termination_by sizeOf t
decreasing_by
  simp_wf
  exact sizeOf_get_entries cfg t entries hents

def genLoop (cfg : TreeConfig) (entries : List FSTree) (pre : String) (depth : Nat) (st : TState) :
    Except Unit (List String × TState) :=
  match entries with
  | [] => .ok ([], st)
  | e :: rest =>
      if filesStop cfg st then .ok ([pre ++ ELBOW ++ LIMIT_MSG], st)
      else
        let connector := if rest.isEmpty then ELBOW else TEE
        let line := pre ++ connector ++ format_entry cfg e
        let st1 := if e.is_dir then { st with dir_count := st.dir_count + 1 }
                   else { st with file_count := st.file_count + 1 }
        if e.is_dir && (cfg.follow_links || !e.is_symlink) then
          match generate cfg e (pre ++ (if rest.isEmpty then BLANK else PIPE)) (depth + 1) st1 with
          | .error err => .error err
          | .ok (sub, st2) =>
              match genLoop cfg rest pre depth st2 with
              | .error err => .error err
              | .ok (out, st3) => .ok (line :: (sub ++ out), st3)
        else
          match genLoop cfg rest pre depth st1 with
          | .error err => .error err
          | .ok (out, st3) => .ok (line :: out, st3)
termination_by sizeOf entries
decreasing_by
  all_goals simp only [List.cons.sizeOf_spec]
  all_goals omega
end


/-- The string actually returned by `TreeGenerator.generate`: the emitted
lines joined with newlines.  Python appends a non-empty subtree block as one
multi-line element of `output`; joining with a newline makes that identical
to flattening the lines, which is how `generate` above models the output
list, so only this final join differs. -/
def generate_str (cfg : TreeConfig) (t : FSTree) (pre : String) (depth : Nat) (st : TState) :
    Except Unit (String × TState) :=
  match generate cfg t pre depth st with
  | .error err => .error err
  | .ok (out, st1) => .ok (String.intercalate "\n" out, st1)

/-! ### Concrete sample entries and configurations used by the
counterexamples and witnesses below -/

/-- A plain file entry below the working directory. -/
def mkFile (nm : String) (sz : Nat) : FSTree :=
  .node { name := nm, path_s := "/r/" ++ nm, rel_cwd := some nm, is_symlink := false,
          stat := some { ftype := .reg, st_size := sz, st_mtime := 5, st_mode := 420 } } none []

/-- A plain directory entry below the working directory. -/
def mkDir (nm : String) (ch : List FSTree) : FSTree :=
  .node { name := nm, path_s := "/r/" ++ nm, rel_cwd := some nm, is_symlink := false,
          stat := some { ftype := .dir, st_size := 0, st_mtime := 7, st_mode := 493 } } none ch

/-- A broken symlink: `is_symlink()` is true but `stat()` raises, so it is
neither a directory nor a file for pathlib. -/
def mkBroken (nm : String) : FSTree :=
  .node { name := nm, path_s := "/r/" ++ nm, rel_cwd := some nm, is_symlink := true,
          stat := none } none []

/-- A symbolic link to a directory. -/
def mkLinkDir (nm : String) (ch : List FSTree) : FSTree :=
  .node { name := nm, path_s := "/r/" ++ nm, rel_cwd := some nm, is_symlink := true,
          stat := some { ftype := .dir, st_size := 0, st_mtime := 7, st_mode := 493 } } none ch

/-- A directory whose listing raises an `OSError` other than
`PermissionError` (for example `FileNotFoundError` after a race, or `EIO`). -/
def mkDirIOErr (nm : String) : FSTree :=
  .node { name := nm, path_s := "/r/" ++ nm, rel_cwd := some nm, is_symlink := false,
          stat := some { ftype := .dir, st_size := 0, st_mtime := 7, st_mode := 493 } }
    (some .ioerr) []

/-- A directory whose listing raises `PermissionError`. -/
def mkDirPerm (nm : String) : FSTree :=
  .node { name := nm, path_s := "/r/" ++ nm, rel_cwd := some nm, is_symlink := false,
          stat := some { ftype := .dir, st_size := 0, st_mtime := 7, st_mode := 493 } }
    (some .permission) []

/-- A file entry that is not located below the current working directory, so
`path.relative_to(Path.cwd())` raises `ValueError`. -/
def mkFileNoCwd (nm : String) : FSTree :=
  .node { name := nm, path_s := "/elsewhere/" ++ nm, rel_cwd := none, is_symlink := false,
          stat := some { ftype := .reg, st_size := 3, st_mtime := 5, st_mode := 420 } } none []

/-- Configuration with gitignore filtering and a single slash pattern. -/
def cfgSlash : TreeConfig := { use_gitignore := true, gitignore_patterns := ["a/b"] }

/-- Configuration with gitignore filtering and a pattern that matches a
relative path but not a base name. -/
def cfgRelPat : TreeConfig := { use_gitignore := true, gitignore_patterns := ["sub/x"] }

/-- Configuration sorting by modification time. -/
def cfgModified : TreeConfig := { sort_by := .modified }

/-- Modelled from the wording of claim C7 (a reference formulation, to compare
with `should_ignore`): exactly three rules evaluated in order with
first-match short-circuiting - (1) hidden name when `show_hidden` is unset,
(2) custom glob match on the base name, (3) when `use_gitignore` is set, a
glob match of the base name against a loaded pattern with trailing slashes
stripped - and false when none match. -/
def claim7_ignore (cfg : TreeConfig) (t : FSTree) : Bool :=
  let name := t.meta.name
  if !cfg.show_hidden && startsDot name then true
  else if cfg.custom_ignore.any (fun pat => fnmatchB name pat) then true
  else if cfg.use_gitignore &&
      cfg.gitignore_patterns.any (fun pat => fnmatchB name (rstripSlash pat)) then true
  else false

/-- File entry whose CWD-relative path is `sub/x` while its base name is
only `x`. -/
def entRelPat : FSTree :=
  .node { name := "x", path_s := "/cwd/sub/x", rel_cwd := some "sub/x", is_symlink := false,
          stat := some { ftype := .reg, st_size := 3, st_mtime := 5, st_mode := 420 } } none []

/-- Configuration with gitignore filtering and a single slash-free pattern. -/
def cfgStarLog : TreeConfig := { use_gitignore := true, gitignore_patterns := ["*.log"] }

/-- An entry that is neither a directory nor a regular file (e.g. a socket). -/
def mkOther (nm : String) : FSTree :=
  .node { name := nm, path_s := "/r/" ++ nm, rel_cwd := some nm, is_symlink := false,
          stat := some { ftype := .other, st_size := 0, st_mtime := 5, st_mode := 49152 } } none []

/-! ### Helper lemmas -/

/-- Unfolding of the budget-marker branch of the entry loop. -/
theorem genLoop_limit (cfg : TreeConfig) (e : FSTree) (rest : List FSTree)
    (pre : String) (depth : Nat) (st : TState) (h : filesStop cfg st = true) :
    genLoop cfg (e :: rest) pre depth st = .ok ([pre ++ ELBOW ++ LIMIT_MSG], st) := by
  rw [genLoop.eq_def]
  simp [h]

/-- A successful Python sort returns a permutation of its input. -/
theorem sortPy_perm (cfg : TreeConfig) (x y : List FSTree) (h : sortPy cfg x = .ok y) :
    y.Perm x := by
  simp only [sortPy] at h
  split at h
  · simp only [Except.ok.injEq] at h
    subst h
    exact List.perm_insertionSort _ x
  · simp at h

/-- Totality of the lexicographic comparison. -/
theorem lexLe_total (x y : List Char) : lexLe x y = true ∨ lexLe y x = true := by
  induction x generalizing y with
  | nil => exact Or.inl rfl
  | cons a as ih =>
      cases y with
      | nil => exact Or.inr rfl
      | cons b bs =>
          rcases lt_trichotomy a b with hab | hab | hab
          · exact Or.inl (by simp [lexLe, hab])
          · subst hab
            rcases ih bs with h | h
            · exact Or.inl (by simp [lexLe, lt_irrefl, h])
            · exact Or.inr (by simp [lexLe, lt_irrefl, h])
          · exact Or.inr (by simp [lexLe, hab])

/-- Transitivity of the lexicographic comparison. -/
theorem lexLe_trans (x y z : List Char) (h1 : lexLe x y = true) (h2 : lexLe y z = true) :
    lexLe x z = true := by
  induction x generalizing y z with
  | nil => rfl
  | cons a as ih =>
      cases y with
      | nil => simp [lexLe] at h1
      | cons b bs =>
          cases z with
          | nil => simp [lexLe] at h2
          | cons c cs =>
              by_cases hab : a < b
              · by_cases hbc : b < c
                · simp [lexLe, lt_trans hab hbc]
                · by_cases hcb : c < b
                  · simp [lexLe, hbc, hcb] at h2
                  · have hb : b = c := le_antisymm (not_lt.mp hcb) (not_lt.mp hbc)
                    subst hb
                    simp [lexLe, hab]
              · by_cases hba : b < a
                · simp [lexLe, hab, hba] at h1
                · have ha : a = b := le_antisymm (not_lt.mp hba) (not_lt.mp hab)
                  subst ha
                  simp only [lexLe, lt_irrefl, if_neg, if_false] at h1
                  by_cases hac : a < c
                  · simp [lexLe, hac]
                  · by_cases hca : c < a
                    · simp [lexLe, hac, hca] at h2
                    · have hc : a = c := le_antisymm (not_lt.mp hca) (not_lt.mp hac)
                      subst hc
                      simp only [lexLe, lt_irrefl, if_neg, if_false] at h2 ⊢
                      exact ih bs cs h1 h2

/-- Totality of the configured key comparison. -/
theorem keyLe_total (cfg : TreeConfig) (a b : FSTree) :
    keyLe cfg a b = true ∨ keyLe cfg b a = true := by
  cases h : cfg.sort_by <;> simp only [keyLe, h]
  · exact lexLe_total _ _
  · simp only [decide_eq_true_eq]
    exact Nat.le_total _ _
  · simp only [decide_eq_true_eq]
    exact Int.le_total _ _

/-- Transitivity of the configured key comparison. -/
theorem keyLe_trans (cfg : TreeConfig) (a b c : FSTree)
    (h1 : keyLe cfg a b = true) (h2 : keyLe cfg b c = true) : keyLe cfg a c = true := by
  cases h : cfg.sort_by <;> simp only [keyLe, h] at h1 h2 ⊢
  · exact lexLe_trans _ _ _ h1 h2
  · simp only [decide_eq_true_eq] at h1 h2 ⊢
    omega
  · simp only [decide_eq_true_eq] at h1 h2 ⊢
    omega

/-- Totality of the comparison used by the sort (reverse included). -/
theorem keyRel_total (cfg : TreeConfig) (a b : FSTree) :
    keyRel cfg a b = true ∨ keyRel cfg b a = true := by
  by_cases hr : cfg.reverse_sort = true <;> simp only [keyRel, hr, if_pos, if_neg,
    Bool.false_eq_true, ite_false, ite_true]
  · exact (keyLe_total cfg b a)
  · exact (keyLe_total cfg a b)

/-- Transitivity of the comparison used by the sort (reverse included). -/
theorem keyRel_trans (cfg : TreeConfig) (a b c : FSTree)
    (h1 : keyRel cfg a b = true) (h2 : keyRel cfg b c = true) : keyRel cfg a c = true := by
  by_cases hr : cfg.reverse_sort = true <;>
    simp only [keyRel, hr, Bool.false_eq_true, ite_false, ite_true] at h1 h2 ⊢
  · exact keyLe_trans cfg c b a h2 h1
  · exact keyLe_trans cfg a b c h1 h2

/-- A successful Python sort is sorted for the configured comparison. -/
theorem sortPy_sorted (cfg : TreeConfig) (x y : List FSTree) (h : sortPy cfg x = .ok y) :
    List.Sorted (fun a b => keyRel cfg a b = true) y := by
  haveI : IsTotal FSTree (fun a b => keyRel cfg a b = true) := ⟨keyRel_total cfg⟩
  haveI : IsTrans FSTree (fun a b => keyRel cfg a b = true) := ⟨keyRel_trans cfg⟩
  simp only [sortPy] at h
  split at h
  · simp only [Except.ok.injEq] at h
    subst h
    exact List.sorted_insertionSort _ x
  · simp at h

/-- The gitignore loop never raises when the entry path lies under the
working directory. -/
theorem gitignoreLoop_total_of_some (name r : String) (pats : List String) :
    ∃ b, gitignoreLoop name (some r) pats = .ok b := by
  induction pats with
  | nil => exact ⟨false, rfl⟩
  | cons p ps ih =>
      by_cases hm : fnmatchB name (rstripSlash p) = true
      · exact ⟨true, by simp [gitignoreLoop, hm]⟩
      · by_cases hs : containsSlash (rstripSlash p) = true
        · by_cases hr : fnmatchB r (rstripSlash p) = true
          · exact ⟨true, by simp [gitignoreLoop, hm, hs, hr]⟩
          · obtain ⟨b, hb⟩ := ih
            exact ⟨b, by simp [gitignoreLoop, hm, hs, hr, hb]⟩
        · obtain ⟨b, hb⟩ := ih
          exact ⟨b, by simp [gitignoreLoop, hm, hs, hb]⟩

/-- With no slash in any stripped pattern, the gitignore loop is exactly an
any-fold of base-name glob matches. -/
theorem gitignoreLoop_no_slash (name : String) (rel : Option String) (pats : List String)
    (hns : ∀ pat ∈ pats, containsSlash (rstripSlash pat) = false) :
    gitignoreLoop name rel pats =
      .ok (pats.any (fun pat => fnmatchB name (rstripSlash pat))) := by
  induction pats with
  | nil => rfl
  | cons p ps ih =>
      have hp : containsSlash (rstripSlash p) = false := hns p (by simp)
      by_cases hm : fnmatchB name (rstripSlash p) = true
      · simp [gitignoreLoop, hm]
      · have := ih (fun pat hmem => hns pat (by simp [hmem]))
        simp [gitignoreLoop, hm, hp, this]

/-- C6: `generate(directory, prefix, depth)` returns an empty block with the
counters unchanged whenever a terminal condition holds at entry: `max_depth`
is set and `depth ≥ max_depth`, or `max_files` is set and `file_count`
already reached it, or the argument is not a directory.  The first conjunct
is also the depth invariant: with `max_depth = k`, a recursive call at depth
`≥ k` renders nothing, so no entry originates from more than `k` nested
steps. -/
theorem c6_terminal_conditions (cfg : TreeConfig) (t : FSTree) (pre : String)
    (depth : Nat) (st : TState) :
    (∀ k : Int, cfg.max_depth = some k → (depth : Int) ≥ k →
      generate cfg t pre depth st = .ok ([], st)) ∧
    (∀ m : Int, cfg.max_files = some m → (st.file_count : Int) ≥ m →
      generate cfg t pre depth st = .ok ([], st)) ∧
    (t.is_dir = false → generate cfg t pre depth st = .ok ([], st)) := by
  refine ⟨?_, ?_, ?_⟩
  · intro k hk hd
    have hds : depthStop cfg depth = true := by
      simp only [depthStop, hk, decide_eq_true_eq]
      omega
    rw [generate.eq_def]
    simp [hds]
  · intro m hm hf
    have hfs : filesStop cfg st = true := by
      simp only [filesStop, hm, decide_eq_true_eq]
      omega
    rw [generate.eq_def]
    by_cases hds : depthStop cfg depth = true <;> simp [hds, hfs]
  · intro hnd
    rw [generate.eq_def]
    by_cases hds : depthStop cfg depth = true <;>
      by_cases hfs : filesStop cfg st = true <;> simp [hds, hfs, hnd]

/-- Witness for C6 at concrete inputs. -/
theorem c6_terminal_conditions_witness :
    (({ max_depth := some 0 } : TreeConfig).max_depth = some 0 ∧
      ((0 : Nat) : Int) ≥ 0 ∧
      generate { max_depth := some 0 } (mkDir "d" []) "" 0 ⟨0, 0⟩ = .ok ([], ⟨0, 0⟩)) ∧
    (({ max_files := some 0 } : TreeConfig).max_files = some 0 ∧
      ((⟨0, 0⟩ : TState).file_count : Int) ≥ 0 ∧
      generate { max_files := some 0 } (mkDir "d" []) "" 0 ⟨0, 0⟩ = .ok ([], ⟨0, 0⟩)) ∧
    ((mkFile "a.txt" 1).is_dir = false ∧
      generate {} (mkFile "a.txt" 1) "" 0 ⟨0, 0⟩ = .ok ([], ⟨0, 0⟩)) :=
  ⟨⟨rfl, by decide,
      (c6_terminal_conditions { max_depth := some 0 } (mkDir "d" []) "" 0 ⟨0, 0⟩).1 0 rfl
        (by decide)⟩,
   ⟨rfl, by decide,
      (c6_terminal_conditions { max_files := some 0 } (mkDir "d" []) "" 0 ⟨0, 0⟩).2.1 0 rfl
        (by decide)⟩,
   ⟨by decide,
      (c6_terminal_conditions {} (mkFile "a.txt" 1) "" 0 ⟨0, 0⟩).2.2 (by decide)⟩⟩

/-- C8 counterexample: the claim says any listing error yields an empty
sequence, but only `PermissionError` is caught (tree.py line 118); a listing
failure with any other `OSError` propagates and aborts the run. -/
theorem c8_cex :
    get_entries {} (mkDirIOErr "d") = .error () ∧
    generate {} (mkDirIOErr "d") "" 0 ⟨0, 0⟩ = .error () := by
  constructor
  · rfl
  · rw [generate.eq_def]
    simp [depthStop, filesStop, mkDirIOErr, FSTree.is_dir, FSTree.meta, get_entries,
      FSTree.lerr]

/-- C8 amended: a `PermissionError` while listing yields the empty sequence
(the directory renders as an empty subtree); any other listing error is not
caught and propagates. -/
theorem c8_amended (cfg : TreeConfig) (m : EntryMeta) (ch : List FSTree) :
    get_entries cfg (.node m (some .permission) ch) = .ok [] ∧
    get_entries cfg (.node m (some .ioerr) ch) = .error () :=
  ⟨rfl, rfl⟩

/-- C4 counterexample: with gitignore filtering on and a pattern containing
a slash, `_should_ignore` reaches `path.relative_to(Path.cwd())`, which
raises `ValueError` for an entry that is not under the working directory —
so the function is not total, contradicting the claim that it returns a
boolean without raising for every entry path. -/
theorem c4_cex : should_ignore cfgSlash (mkFileNoCwd "x") = .error () := rfl

/-- C4 amended: `_should_ignore` is a pure function of the entry and the
configuration and returns a boolean whenever the entry lies under the
current working directory, or whenever gitignore filtering is off; but for
an entry outside the working directory it can raise (as the counterexample
shows), rather than merely producing incorrect match results. -/
theorem c4_amended (cfg : TreeConfig) (t : FSTree) :
    (t.meta.rel_cwd.isSome = true → ∃ b, should_ignore cfg t = .ok b) ∧
    (cfg.use_gitignore = false → ∃ b, should_ignore cfg t = .ok b) := by
  constructor
  · intro hrel
    by_cases h1 : (!cfg.show_hidden && startsDot t.meta.name) = true
    · exact ⟨true, by simp [should_ignore, h1]⟩
    · by_cases h2 : cfg.custom_ignore.any (fun pat => fnmatchB t.meta.name pat) = true
      · exact ⟨true, by simp [should_ignore, h1, h2]⟩
      · by_cases h3 : cfg.use_gitignore = true
        · obtain ⟨r, hr⟩ := Option.isSome_iff_exists.mp hrel
          obtain ⟨b, hb⟩ := gitignoreLoop_total_of_some t.meta.name r cfg.gitignore_patterns
          exact ⟨b, by simp [should_ignore, h1, h2, h3, hr, hb]⟩
        · exact ⟨false, by simp [should_ignore, h1, h2, h3]⟩
  · intro hg
    by_cases h1 : (!cfg.show_hidden && startsDot t.meta.name) = true
    · exact ⟨true, by simp [should_ignore, h1]⟩
    · by_cases h2 : cfg.custom_ignore.any (fun pat => fnmatchB t.meta.name pat) = true
      · exact ⟨true, by simp [should_ignore, h1, h2]⟩
      · exact ⟨false, by simp [should_ignore, h1, h2, hg]⟩

/-- Witness for the amended C4 at concrete inputs. -/
theorem c4_amended_witness :
    ((mkFile "x" 1).meta.rel_cwd.isSome = true ∧
      ∃ b, should_ignore cfgSlash (mkFile "x" 1) = .ok b) ∧
    (({} : TreeConfig).use_gitignore = false ∧
      ∃ b, should_ignore {} (mkFileNoCwd "x") = .ok b) :=
  ⟨⟨by decide, (c4_amended cfgSlash (mkFile "x" 1)).1 (by decide)⟩,
   ⟨rfl, (c4_amended {} (mkFileNoCwd "x")).2 rfl⟩⟩

/-- C5 counterexample: with `sort_by = modified`, the sort key calls
`p.stat().st_mtime` on every listed entry; a broken symlink (stat raises)
that survives the ignore policy makes the sort raise inside `_get_entries`,
and nothing catches it, so the whole run aborts — contradicting the claim
that a metadata-read failure at most drops an annotation and never aborts
the run. -/
theorem c5_cex :
    generate cfgModified (mkDir "r" [mkBroken "link"]) "" 0 ⟨0, 0⟩ = .error () := by
  rw [generate.eq_def]
  simp [depthStop, filesStop, cfgModified, mkDir, mkBroken, FSTree.is_dir, FSTree.meta,
    FSTree.lerr, FSTree.children, get_entries, filterIgnored, should_ignore, startsDot,
    sortPy, sort_key_ok]

/-- C5 amended: a metadata failure during formatting is swallowed (the entry
renders as its bare name, all annotations omitted), and sorting by name or
size never raises on a stat failure (such an entry is not a file and gets
size key 0); but sorting by modification time evaluates the stat of every
listed entry, so one stat failure aborts the sort and propagates upward,
aborting the run. -/
theorem c5_amended :
    (∀ (cfg : TreeConfig) (t : FSTree), t.meta.stat = none →
      format_entry cfg t = (if cfg.full_path then t.meta.path_s else t.meta.name)) ∧
    (∀ (cfg : TreeConfig) (l : List FSTree), cfg.sort_by ≠ .modified →
      ∃ l2, sortPy cfg l = .ok l2) ∧
    (∀ (cfg : TreeConfig) (l : List FSTree) (e : FSTree), cfg.sort_by = .modified →
      e ∈ l → e.meta.stat = none → sortPy cfg l = .error ()) := by
  refine ⟨?_, ?_, ?_⟩
  · intro cfg t h
    have hd : t.is_dir = false := by simp [FSTree.is_dir, h]
    have hf : t.is_file = false := by simp [FSTree.is_file, h]
    simp [format_entry, hd, hf, h]
  · intro cfg l hsb
    have hall : l.all (fun e => sort_key_ok cfg e) = true := by
      apply List.all_eq_true.mpr
      intro e he
      cases hc : cfg.sort_by with
      | name => simp [sort_key_ok, hc]
      | size => simp [sort_key_ok, hc]
      | modified => exact absurd hc hsb
    exact ⟨l.insertionSort (fun a b => keyRel cfg a b = true), by simp [sortPy, hall]⟩
  · intro cfg l e hm he hst
    have hall : l.all (fun e => sort_key_ok cfg e) = false := by
      apply Bool.eq_false_iff.mpr
      intro hcon
      have := List.all_eq_true.mp hcon e he
      rw [sort_key_ok, hm, hst] at this
      simp at this
    simp [sortPy, hall]

/-- Witness for the amended C5 at concrete inputs. -/
theorem c5_amended_witness :
    ((mkBroken "link").meta.stat = none ∧ format_entry {} (mkBroken "link") = "link") ∧
    (({} : TreeConfig).sort_by ≠ .modified ∧ ∃ l2, sortPy {} [mkFile "a.txt" 1] = .ok l2) ∧
    (cfgModified.sort_by = .modified ∧ mkBroken "link" ∈ [mkBroken "link"] ∧
      sortPy cfgModified [mkBroken "link"] = .error ()) :=
  ⟨⟨rfl, by simpa [mkBroken, FSTree.meta] using c5_amended.1 {} (mkBroken "link") rfl⟩,
   ⟨by decide, c5_amended.2.1 {} [mkFile "a.txt" 1] (by decide)⟩,
   ⟨rfl, by simp, c5_amended.2.2 cfgModified [mkBroken "link"] (mkBroken "link") rfl
      (by simp) rfl⟩⟩

/-- C10: a symbolic link to a directory with `follow_links` unset is still
emitted as one line (with a trailing slash) and still increments the
directory counter by exactly one; only the recursive descent is skipped, so
the loop continues directly with the remaining siblings and the link
children contribute no lines. -/
theorem c10_symlink_dir_no_follow (cfg : TreeConfig) (e : FSTree) (rest : List FSTree)
    (pre : String) (depth : Nat) (st : TState)
    (hdir : e.is_dir = true) (hsym : e.is_symlink = true)
    (hfl : cfg.follow_links = false) (hstop : filesStop cfg st = false) :
    genLoop cfg (e :: rest) pre depth st =
      (match genLoop cfg rest pre depth { st with dir_count := st.dir_count + 1 } with
       | .error err => .error err
       | .ok (out, st3) =>
           .ok ((pre ++ (if rest.isEmpty then ELBOW else TEE) ++ format_entry cfg e) :: out,
             st3)) ∧
    ∃ s, format_entry cfg e = s ++ "/" := by
  constructor
  · rw [genLoop.eq_def]
    simp [hstop, hdir, hsym, hfl]
  · have hfile : e.is_file = false := is_file_false_of_is_dir e hdir
    simp only [format_entry, hdir, hfile, Bool.and_false, Bool.false_eq_true, if_true,
      if_false, ite_false, ite_true]
    by_cases hp : cfg.show_permissions = true
    · cases hst : e.meta.stat with
      | none =>
          simp only [hp, hst, if_true, ite_true]
          exact ⟨_, rfl⟩
      | some si =>
          simp only [hp, hst, if_true, ite_true]
          refine ⟨"[" ++ lastThree (octString si.st_mode) ++ "] " ++
            (if cfg.full_path = true then e.meta.path_s else e.meta.name), ?_⟩
          simp [String.append_assoc]
    · simp only [hp, Bool.false_eq_true, if_false, ite_false]
      exact ⟨_, rfl⟩

/-- C2: in every rendered sibling list, with the budget check passed, the
entry at the head of a non-empty remainder uses the tee connector and passes
the pipe continuation down to its children, while the last entry uses the
elbow connector and passes the blank continuation; the children prefix is
blank exactly when the entry is last. -/
theorem c2_connectors (cfg : TreeConfig) (e : FSTree) (rest : List FSTree)
    (pre : String) (depth : Nat) (st : TState) (hstop : filesStop cfg st = false) :
    (rest = [] →
      genLoop cfg (e :: rest) pre depth st =
        (let st1 := if e.is_dir then { st with dir_count := st.dir_count + 1 }
                    else { st with file_count := st.file_count + 1 }
         if e.is_dir && (cfg.follow_links || !e.is_symlink) then
           match generate cfg e (pre ++ BLANK) (depth + 1) st1 with
           | .error err => .error err
           | .ok (sub, st2) =>
               match genLoop cfg [] pre depth st2 with
               | .error err => .error err
               | .ok (out, st3) => .ok ((pre ++ ELBOW ++ format_entry cfg e) :: (sub ++ out), st3)
         else
           match genLoop cfg [] pre depth st1 with
           | .error err => .error err
           | .ok (out, st3) => .ok ((pre ++ ELBOW ++ format_entry cfg e) :: out, st3))) ∧
    (rest ≠ [] →
      genLoop cfg (e :: rest) pre depth st =
        (let st1 := if e.is_dir then { st with dir_count := st.dir_count + 1 }
                    else { st with file_count := st.file_count + 1 }
         if e.is_dir && (cfg.follow_links || !e.is_symlink) then
           match generate cfg e (pre ++ PIPE) (depth + 1) st1 with
           | .error err => .error err
           | .ok (sub, st2) =>
               match genLoop cfg rest pre depth st2 with
               | .error err => .error err
               | .ok (out, st3) => .ok ((pre ++ TEE ++ format_entry cfg e) :: (sub ++ out), st3)
         else
           match genLoop cfg rest pre depth st1 with
           | .error err => .error err
           | .ok (out, st3) => .ok ((pre ++ TEE ++ format_entry cfg e) :: out, st3))) := by
  constructor
  · intro hr
    subst hr
    rw [genLoop.eq_def]
    simp [hstop]
  · intro hr
    cases rest with
    | nil => exact absurd rfl hr
    | cons r rs =>
        rw [genLoop.eq_def]
        simp [hstop]

/-- Witness for C2 at concrete inputs. -/
theorem c2_connectors_witness :
    filesStop {} ⟨0, 0⟩ = false ∧
    genLoop {} [mkFile "a.txt" 1] "" 0 ⟨0, 0⟩ =
      (let st1 := if (mkFile "a.txt" 1).is_dir
                  then { (⟨0, 0⟩ : TState) with dir_count := 0 + 1 }
                  else { (⟨0, 0⟩ : TState) with file_count := 0 + 1 }
       if (mkFile "a.txt" 1).is_dir && (({} : TreeConfig).follow_links || !(mkFile "a.txt" 1).is_symlink) then
         match generate {} (mkFile "a.txt" 1) ("" ++ BLANK) (0 + 1) st1 with
         | .error err => .error err
         | .ok (sub, st2) =>
             match genLoop {} [] "" 0 st2 with
             | .error err => .error err
             | .ok (out, st3) =>
                 .ok (("" ++ ELBOW ++ format_entry {} (mkFile "a.txt" 1)) :: (sub ++ out), st3)
       else
         match genLoop {} [] "" 0 st1 with
         | .error err => .error err
         | .ok (out, st3) =>
             .ok (("" ++ ELBOW ++ format_entry {} (mkFile "a.txt" 1)) :: out, st3)) :=
  ⟨rfl, (c2_connectors {} (mkFile "a.txt" 1) [] "" 0 ⟨0, 0⟩ rfl).1 rfl⟩

/-- Witness for C10 at concrete inputs. -/
theorem c10_symlink_dir_no_follow_witness :
    (mkLinkDir "ld" [mkFile "c.txt" 1]).is_dir = true ∧
    (mkLinkDir "ld" [mkFile "c.txt" 1]).is_symlink = true ∧
    ({} : TreeConfig).follow_links = false ∧
    filesStop {} ⟨0, 0⟩ = false ∧
    (genLoop {} [mkLinkDir "ld" [mkFile "c.txt" 1]] "" 0 ⟨0, 0⟩ =
      (match genLoop {} [] "" 0 { (⟨0, 0⟩ : TState) with dir_count := 0 + 1 } with
       | .error err => .error err
       | .ok (out, st3) =>
           .ok (("" ++ (if ([] : List FSTree).isEmpty then ELBOW else TEE) ++
             format_entry {} (mkLinkDir "ld" [mkFile "c.txt" 1])) :: out, st3)) ∧
      ∃ s, format_entry {} (mkLinkDir "ld" [mkFile "c.txt" 1]) = s ++ "/") :=
  ⟨rfl, rfl, rfl, rfl,
    c10_symlink_dir_no_follow {} (mkLinkDir "ld" [mkFile "c.txt" 1]) [] "" 0 ⟨0, 0⟩
      rfl rfl rfl rfl⟩

/-- C9: every entry returned by the listing operation (hence every entry a
rendered line or counter update can come from) is a directory or a regular
file; entries that are neither — broken symlinks, sockets, FIFOs — are
silently dropped by the type filter or by the directories/files regrouping. -/
theorem c9_listed_entries_typed (cfg : TreeConfig) (t : FSTree) (l : List FSTree)
    (e : FSTree) (h : get_entries cfg t = .ok l) (he : e ∈ l) :
    e.is_dir = true ∨ e.is_file = true := by
  cases t with
  | node m lerr ch =>
      simp only [get_entries, FSTree.lerr, FSTree.children] at h
      cases lerr with
      | some le =>
          cases le with
          | permission =>
              simp only [Except.ok.injEq] at h
              subst h
              simp at he
          | ioerr => simp at h
      | none =>
          cases hfi : filterIgnored cfg ch with
          | error err => rw [hfi] at h; simp at h
          | ok entries0 =>
              rw [hfi] at h
              by_cases hdo : cfg.dirs_only = true
              · simp [hdo] at h
                cases hs1 : sortPy cfg (entries0.filter (fun x => x.is_dir)) with
                | error err => rw [hs1] at h; simp at h
                | ok sorted1 =>
                    rw [hs1] at h
                    simp at h
                    subst h
                    have hmem := ((sortPy_perm cfg _ _ hs1).mem_iff).mp he
                    exact Or.inl (List.mem_filter.mp hmem).2
              · by_cases hfo : cfg.files_only = true
                · simp [hdo, hfo] at h
                  cases hs1 : sortPy cfg (entries0.filter (fun x => x.is_file)) with
                  | error err => rw [hs1] at h; simp at h
                  | ok sorted1 =>
                      rw [hs1] at h
                      simp at h
                      subst h
                      have hmem := ((sortPy_perm cfg _ _ hs1).mem_iff).mp he
                      exact Or.inr (List.mem_filter.mp hmem).2
                · simp [hdo, hfo] at h
                  cases hs1 : sortPy cfg entries0 with
                  | error err => rw [hs1] at h; simp at h
                  | ok sorted1 =>
                      rw [hs1] at h
                      simp at h
                      cases hs2 : sortPy cfg (sorted1.filter (fun x => x.is_dir)) with
                      | error err => rw [hs2] at h; simp at h
                      | ok dirs =>
                          rw [hs2] at h
                          cases hs3 : sortPy cfg (sorted1.filter (fun x => x.is_file)) with
                          | error err => rw [hs3] at h; simp at h
                          | ok files =>
                              rw [hs3] at h
                              simp at h
                              subst h
                              rcases List.mem_append.mp he with hd | hf
                              · have hmem := ((sortPy_perm cfg _ _ hs2).mem_iff).mp hd
                                exact Or.inl (List.mem_filter.mp hmem).2
                              · have hmem := ((sortPy_perm cfg _ _ hs3).mem_iff).mp hf
                                exact Or.inr (List.mem_filter.mp hmem).2

/-- Witness for C9 at concrete inputs. -/
theorem c9_listed_entries_typed_witness :
    get_entries {} (mkDir "d" [mkFile "a.txt" 1, mkOther "sock"]) = .ok [mkFile "a.txt" 1] ∧
    mkFile "a.txt" 1 ∈ [mkFile "a.txt" 1] ∧
    ((mkFile "a.txt" 1).is_dir = true ∨ (mkFile "a.txt" 1).is_file = true) :=
  ⟨rfl, by simp,
    c9_listed_entries_typed {} (mkDir "d" [mkFile "a.txt" 1, mkOther "sock"])
      [mkFile "a.txt" 1] (mkFile "a.txt" 1) rfl (by simp)⟩

/-- C3: with no type filter active, a successful listing is all surviving
directories (sorted by the configured comparison, reverse included) followed
by all surviving files (likewise sorted); each group is a permutation of the
corresponding entries that passed the ignore policy. -/
theorem c3_dirs_before_files (cfg : TreeConfig) (t : FSTree) (l : List FSTree)
    (hdo : cfg.dirs_only = false) (hfo : cfg.files_only = false)
    (h : get_entries cfg t = .ok l) :
    ∃ ds fs, l = ds ++ fs ∧
      (∀ e ∈ ds, e.is_dir = true) ∧ (∀ e ∈ fs, e.is_file = true) ∧
      List.Sorted (fun a b => keyRel cfg a b = true) ds ∧
      List.Sorted (fun a b => keyRel cfg a b = true) fs ∧
      (t.lerr = none → ∀ entries0, filterIgnored cfg t.children = .ok entries0 →
        ds.Perm (entries0.filter (fun x => x.is_dir)) ∧
        fs.Perm (entries0.filter (fun x => x.is_file))) := by
  cases t with
  | node m lerr ch =>
      simp only [get_entries, FSTree.lerr, FSTree.children] at h ⊢
      cases lerr with
      | some le =>
          cases le with
          | permission =>
              simp only [Except.ok.injEq] at h
              subst h
              exact ⟨[], [], rfl, by simp, by simp, List.sorted_nil, List.sorted_nil,
                fun habs => by simp at habs⟩
          | ioerr => simp at h
      | none =>
          cases hfi : filterIgnored cfg ch with
          | error err => rw [hfi] at h; simp at h
          | ok entries0 =>
              rw [hfi] at h
              simp [hdo, hfo] at h
              cases hs1 : sortPy cfg entries0 with
              | error err => rw [hs1] at h; simp at h
              | ok sorted1 =>
                  rw [hs1] at h
                  simp at h
                  cases hs2 : sortPy cfg (sorted1.filter (fun x => x.is_dir)) with
                  | error err => rw [hs2] at h; simp at h
                  | ok dirs =>
                      rw [hs2] at h
                      cases hs3 : sortPy cfg (sorted1.filter (fun x => x.is_file)) with
                      | error err => rw [hs3] at h; simp at h
                      | ok files =>
                          rw [hs3] at h
                          simp at h
                          subst h
                          refine ⟨dirs, files, rfl, ?_, ?_, sortPy_sorted cfg _ _ hs2,
                            sortPy_sorted cfg _ _ hs3, ?_⟩
                          · intro e hmem
                            exact (List.mem_filter.mp
                              (((sortPy_perm cfg _ _ hs2).mem_iff).mp hmem)).2
                          · intro e hmem
                            exact (List.mem_filter.mp
                              (((sortPy_perm cfg _ _ hs3).mem_iff).mp hmem)).2
                          · intro _ entries1 hfi1
                            simp only [Except.ok.injEq] at hfi1
                            subst hfi1
                            have hp1 : sorted1.Perm entries0 := sortPy_perm cfg _ _ hs1
                            constructor
                            · exact (sortPy_perm cfg _ _ hs2).trans (hp1.filter _)
                            · exact (sortPy_perm cfg _ _ hs3).trans (hp1.filter _)

/-- Witness for C3 at concrete inputs. -/
theorem c3_dirs_before_files_witness :
    ({} : TreeConfig).dirs_only = false ∧ ({} : TreeConfig).files_only = false ∧
    get_entries {} (mkDir "d" [mkFile "a.txt" 1, mkDir "sub" []]) =
      .ok [mkDir "sub" [], mkFile "a.txt" 1] ∧
    (∃ ds fs, [mkDir "sub" [], mkFile "a.txt" 1] = ds ++ fs ∧
      (∀ e ∈ ds, e.is_dir = true) ∧ (∀ e ∈ fs, e.is_file = true) ∧
      List.Sorted (fun a b => keyRel ({} : TreeConfig) a b = true) ds ∧
      List.Sorted (fun a b => keyRel ({} : TreeConfig) a b = true) fs ∧
      ((mkDir "d" [mkFile "a.txt" 1, mkDir "sub" []]).lerr = none →
        ∀ entries0,
          filterIgnored {} (mkDir "d" [mkFile "a.txt" 1, mkDir "sub" []]).children =
            .ok entries0 →
          ds.Perm (entries0.filter (fun x => x.is_dir)) ∧
          fs.Perm (entries0.filter (fun x => x.is_file)))) :=
  ⟨rfl, rfl, rfl,
    c3_dirs_before_files {} (mkDir "d" [mkFile "a.txt" 1, mkDir "sub" []])
      [mkDir "sub" [], mkFile "a.txt" 1] rfl rfl rfl⟩

/-- C7 counterexample: the three rules of the claim do not ignore an entry
whose base name matches no pattern, yet `_should_ignore` returns true for it
because a pattern containing a slash is additionally matched against the
CWD-relative path of the entry — a matching mode the claim omits. -/
theorem c7_cex :
    claim7_ignore cfgRelPat entRelPat = false ∧
    should_ignore cfgRelPat entRelPat = .ok true :=
  ⟨rfl, rfl⟩

/-- C7 amended: `_should_ignore` evaluates the three exclusion rules in the
claimed order with first-match short-circuiting and no other exclusion
source, and the claim is exact whenever no loaded gitignore pattern contains
a slash after stripping; a slash-containing pattern is additionally matched
against the CWD-relative path of the entry (raising for entries outside the
working directory), as the counterexample shows. -/
theorem c7_amended (cfg : TreeConfig) (t : FSTree)
    (hns : ∀ pat ∈ cfg.gitignore_patterns, containsSlash (rstripSlash pat) = false) :
    should_ignore cfg t = .ok (claim7_ignore cfg t) := by
  simp only [should_ignore, claim7_ignore]
  by_cases h1 : (!cfg.show_hidden && startsDot t.meta.name) = true
  · simp [h1]
  · by_cases h2 : cfg.custom_ignore.any (fun pat => fnmatchB t.meta.name pat) = true
    · simp [h1, h2]
    · by_cases h3 : cfg.use_gitignore = true
      · have hg := gitignoreLoop_no_slash t.meta.name t.meta.rel_cwd cfg.gitignore_patterns hns
        by_cases hany :
            cfg.gitignore_patterns.any (fun pat => fnmatchB t.meta.name (rstripSlash pat)) = true
        · rw [hany] at hg
          simp [h1, h2, h3, hany, hg]
        · rw [Bool.not_eq_true] at hany
          rw [hany] at hg
          simp [h1, h2, h3, hany, hg]
      · simp [h1, h2, h3]

/-- Witness for the amended C7 at concrete inputs. -/
theorem c7_amended_witness :
    (∀ pat ∈ cfgStarLog.gitignore_patterns, containsSlash (rstripSlash pat) = false) ∧
    should_ignore cfgStarLog (mkFile "a.log" 1) =
      .ok (claim7_ignore cfgStarLog (mkFile "a.log" 1)) :=
  ⟨by decide, c7_amended cfgStarLog (mkFile "a.log" 1) (by decide)⟩

/-- Budget preservation across one invocation, proved by the functional
induction of the mutual recursion. -/
theorem c1_budget_aux (cfg : TreeConfig) (m : Int) (hm : cfg.max_files = some m) :
    ∀ (t : FSTree) (pre : String) (depth : Nat) (st : TState),
      ∀ (out : List String) (st1 : TState),
        (st.file_count : Int) ≤ m → generate cfg t pre depth st = .ok (out, st1) →
        (st1.file_count : Int) ≤ m := by
  apply generate.induct cfg
    (fun t pre depth st => ∀ (out : List String) (st1 : TState),
      (st.file_count : Int) ≤ m → generate cfg t pre depth st = .ok (out, st1) →
      (st1.file_count : Int) ≤ m)
    (fun l pre depth st => ∀ (out : List String) (st1 : TState),
      (st.file_count : Int) ≤ m → genLoop cfg l pre depth st = .ok (out, st1) →
      (st1.file_count : Int) ≤ m)
  · intro t pre depth st hdep out st1 hle hgen
    rw [generate.eq_def] at hgen
    simp [hdep] at hgen
    obtain ⟨-, h2⟩ := hgen
    subst h2
    exact hle
  · intro t pre depth st hdep hfs out st1 hle hgen
    rw [generate.eq_def] at hgen
    simp [hdep, hfs] at hgen
    obtain ⟨-, h2⟩ := hgen
    subst h2
    exact hle
  · intro t pre depth st hdep hfs hnd out st1 hle hgen
    rw [generate.eq_def] at hgen
    simp [hdep, hfs, hnd] at hgen
    obtain ⟨-, h2⟩ := hgen
    subst h2
    exact hle
  · intro t pre depth st hdep hfs hnd err hents out st1 hle hgen
    rw [generate.eq_def] at hgen
    simp only [hdep, hfs, hnd, Bool.false_eq_true, if_false, ite_false] at hgen
    split at hgen
    · simp at hgen
    · rename_i entries2 heq
      rw [hents] at heq
      simp at heq
  · intro t pre depth st hdep hfs hnd entries hents ih out st1 hle hgen
    rw [generate.eq_def] at hgen
    simp only [hdep, hfs, hnd, Bool.false_eq_true, if_false, ite_false] at hgen
    split at hgen
    · rename_i err2 heq
      rw [hents] at heq
      simp at heq
    · rename_i entries2 heq
      rw [hents] at heq
      simp only [Except.ok.injEq] at heq
      subst heq
      exact ih out st1 hle hgen
  · intro pre depth st out st1 hle hgen
    rw [genLoop.eq_def] at hgen
    simp at hgen
    obtain ⟨-, h2⟩ := hgen
    subst h2
    exact hle
  · intro pre depth st e rest hfs out st1 hle hgen
    rw [genLoop.eq_def] at hgen
    simp [hfs] at hgen
    obtain ⟨-, h2⟩ := hgen
    subst h2
    exact hle
  · intro pre depth st e rest hfs
    dsimp only
    intro hcond err hgenE ih out st1 hle hgen
    simp only [dite_eq_ite] at hgenE
    rw [genLoop.eq_def] at hgen
    simp [hfs, hcond, hgenE] at hgen
  · intro pre depth st e rest hfs
    dsimp only
    intro hcond outE st3a hgenOk err hLoopE ihGen ihLoop out st1 hle hgen
    simp only [dite_eq_ite] at hgenOk hLoopE
    rw [genLoop.eq_def] at hgen
    simp [hfs, hcond, hgenOk, hLoopE] at hgen
  · intro pre depth st e rest hfs
    dsimp only
    intro hcond outE st3a hgenOk outL st3 hLoopOk ihGen ihLoop out st1 hle hgen
    simp only [dite_eq_ite] at hgenOk hLoopOk ihGen ihLoop
    rw [genLoop.eq_def] at hgen
    simp [hfs, hcond, hgenOk, hLoopOk] at hgen
    obtain ⟨-, h2⟩ := hgen
    subst h2
    have hdir : e.is_dir = true := by
      have hc2 := hcond
      simp only [Bool.and_eq_true] at hc2
      exact hc2.1
    have hb : ((if e.is_dir = true
        then ({ file_count := st.file_count, dir_count := st.dir_count + 1 } : TState)
        else { file_count := st.file_count + 1, dir_count := st.dir_count }).file_count : Int)
        ≤ m := by
      simp [hdir]
      exact hle
    exact ihLoop outL st3 (ihGen outE st3a hb hgenOk) hLoopOk
  · intro pre depth st e rest hfs
    dsimp only
    intro hcond err hLoopE ih out st1 hle hgen
    simp only [dite_eq_ite] at hLoopE
    rw [genLoop.eq_def] at hgen
    simp [hfs, hcond, hLoopE] at hgen
  · intro pre depth st e rest hfs
    dsimp only
    intro hcond outL st3 hLoopOk ih out st1 hle hgen
    simp only [dite_eq_ite] at hLoopOk ih
    rw [genLoop.eq_def] at hgen
    simp [hfs, hcond, hLoopOk] at hgen
    obtain ⟨-, h2⟩ := hgen
    subst h2
    refine ih outL st3 ?_ hLoopOk
    by_cases hdir : e.is_dir = true
    · simp [hdir]
      exact hle
    · simp [hdir]
      have hlt : (st.file_count : Int) < m := by
        simp [filesStop, hm] at hfs
        omega
      omega

/-- C1: with `max_files = m` set, the file counter is shared by all recursive
calls of one invocation and never exceeds `m` across the whole walk (so at
most `m` file lines are emitted in total, each file line incrementing the
counter by exactly one at emission); and a directory whose turn comes with
the budget already exhausted emits exactly one "(file limit reached)" marker
line, using the elbow connector, and processes none of its remaining
entries. -/
theorem c1_global_file_budget (cfg : TreeConfig) (m : Int) (hm : cfg.max_files = some m) :
    (∀ (t : FSTree) (pre : String) (depth : Nat) (st : TState) (out : List String)
        (st1 : TState),
        (st.file_count : Int) ≤ m → generate cfg t pre depth st = .ok (out, st1) →
        (st1.file_count : Int) ≤ m) ∧
    (∀ (e : FSTree) (rest : List FSTree) (pre : String) (depth : Nat) (st : TState),
        (st.file_count : Int) ≥ m →
        genLoop cfg (e :: rest) pre depth st = .ok ([pre ++ ELBOW ++ LIMIT_MSG], st)) := by
  constructor
  · intro t pre depth st out st1 hle hgen
    exact c1_budget_aux cfg m hm t pre depth st out st1 hle hgen
  · intro e rest pre depth st hge
    apply genLoop_limit
    simp only [filesStop, hm, decide_eq_true_eq]
    omega

/-- Witness for C1 at concrete inputs. -/
theorem c1_global_file_budget_witness :
    (({ max_files := some 1 } : TreeConfig).max_files = some 1) ∧
    (((⟨0, 0⟩ : TState).file_count : Int) ≤ 1) ∧
    (generate { max_files := some 1 } (mkDir "d" [mkFile "a.txt" 1]) "" 0 ⟨0, 0⟩ =
      .ok (["└── a.txt"], ⟨1, 0⟩)) ∧
    (((⟨1, 0⟩ : TState).file_count : Int) ≤ 1) ∧
    (((⟨1, 0⟩ : TState).file_count : Int) ≥ 1) ∧
    (genLoop { max_files := some 1 } [mkFile "b.txt" 2] "" 0 ⟨1, 0⟩ =
      .ok (["" ++ ELBOW ++ LIMIT_MSG], ⟨1, 0⟩)) := by
  have hgen : generate { max_files := some 1 } (mkDir "d" [mkFile "a.txt" 1]) "" 0 ⟨0, 0⟩ =
      .ok (["└── a.txt"], ⟨1, 0⟩) := by
    rw [generate.eq_def]
    simp +decide [genLoop.eq_def, get_entries, filterIgnored, should_ignore,
      startsDot, sortPy, sort_key_ok, keyRel, keyLe, lexLe, lowerData, List.insertionSort,
      List.orderedInsert, mkDir, mkFile, FSTree.is_dir, FSTree.is_file, FSTree.is_symlink,
      FSTree.meta, FSTree.lerr, FSTree.children, depthStop, filesStop, format_entry,
      ELBOW, TEE, PIPE, BLANK, LIMIT_MSG]
  refine ⟨rfl, by decide, hgen, ?_, by decide, ?_⟩
  · exact (c1_global_file_budget { max_files := some 1 } 1 rfl).1 _ _ _ _ _ _ (by decide) hgen
  · exact (c1_global_file_budget { max_files := some 1 } 1 rfl).2 (mkFile "b.txt" 2) [] "" 0
      ⟨1, 0⟩ (by decide)
